import Mathlib

/-!
Verification of the minibatch block-sampling core of a GNN training
tutorial.  The source builds, per minibatch, a chain of bipartite
"blocks" (one per GNN layer) by repeatedly taking the in-subgraph of a
frontier of seed nodes and compacting it with `dgl.to_block`, and runs
layer-wise full-graph inference over single-layer full-neighbor blocks.

The graph is a static directed edge list over node ids `0..N-1`.  The
block-compaction step (`dgl.in_subgraph` / `dgl.sampling.sample_neighbors`
followed by `dgl.to_block`) lives in the DGL library, not in this
repository; it is modelled here from the spec's Block Builder algorithm
(section 4.3).  The samplers, the propagate step and the inference driver
are translated from the notebook.
-/

/-- A neighbor-selection policy: given a destination node and its incident
in-edges, return the chosen subset of those edges. -/
def Selector : Type := Nat → List (Nat × Nat) → List (Nat × Nat)

/-- A static directed graph: node count and an edge list of
(source, destination) pairs of global node ids. -/
structure Graph where
  numNodes : Nat
  edges : List (Nat × Nat)
deriving DecidableEq, Repr

/-- All edges of `g` whose destination endpoint is `v`, in edge-list order
(the Graph Store's incident-edge lookup). -/
def inEdges (g : Graph) (v : Nat) : List (Nat × Nat) :=
  g.edges.filter (fun e => e.2 = v)

/-- The in-degree of `v` in the original graph. -/
def inDegree (g : Graph) (v : Nat) : Nat :=
  (inEdges g v).length

/-- Deduplication keeping the first occurrence of each id, relative to a
set of already-seen ids. -/
def dedupFirstAux (seen : List Nat) : List Nat → List Nat
  | [] => []
  | x :: xs => if x ∈ seen then dedupFirstAux seen xs else x :: dedupFirstAux (x :: seen) xs

/-- Deduplication of a node-id list keeping first occurrences, order
preserved. -/
def dedupFirst (l : List Nat) : List Nat :=
  dedupFirstAux [] l

/-- A bipartite dependency block: compacted src and dst index spaces and
an edge list of (local src index, local dst index) pairs. -/
structure Block where
  src_global_ids : List Nat
  dst_global_ids : List Nat
  edges : List (Nat × Nat)
deriving DecidableEq, Repr

/-- The block with no nodes and no edges. -/
def emptyBlock : Block :=
  { src_global_ids := [], dst_global_ids := [], edges := [] }

/-- The full-neighbor selection policy (`dgl.in_subgraph`): keep every
incident edge. -/
def fullSelector : Selector := fun _ es => es

/-- A fanout selector usable as a concrete instance of fixed-fanout
sampling: keep the first `k` incident edges. -/
def takeSelector (k : Nat) : Selector := fun _ es => es.take k

/-- Modelled from the spec: the Block Builder (section 4.3), standing in
for DGL's `in_subgraph`/`sample_neighbors` + `to_block`, which are library
code not in this repository.  Seeds are deduplicated preserving first
occurrence; each seed's incident in-edges are filtered through the
selector; `src_global_ids` is the deduplicated seeds followed by the
remaining source endpoints in first-seen order; edges are emitted as
(local src index, local dst index) pairs. -/
def buildBlock (g : Graph) (sel : Selector) (seeds : List Nat) : Block :=
  let dst := dedupFirst seeds
  let selEdges := dst.flatMap (fun v => sel v (inEdges g v))
  let src := dedupFirst (dst ++ selEdges.map Prod.fst)
  { src_global_ids := src
    dst_global_ids := dst
    edges := selEdges.map (fun e => (src.indexOf e.1, dst.indexOf e.2)) }

/-- The sampling loop shared by both samplers: consume one selector per
layer (in construction order, output layer first), build a block from the
current frontier, prepend it to the chain being assembled, and continue
with the block's src ids as the new frontier. -/
def sampleChainAux (g : Graph) : List Selector → List Nat → List Block → List Block
  | [], _, acc => acc
  | sel :: rest, frontier, acc =>
    let b := buildBlock g sel frontier
    sampleChainAux g rest b.src_global_ids (b :: acc)

/-- Sample a block chain: `sels` are the per-construction-step selectors
(first selector builds the chain's last block). -/
def sampleChain (g : Graph) (sels : List Selector) (seeds : List Nat) : List Block :=
  sampleChainAux g sels seeds []

/-- Construction-order build sequence recording, for each block, the
frontier (seed set) it was built from. -/
def buildSeqF (g : Graph) : List Selector → List Nat → List (Block × List Nat)
  | [], _ => []
  | sel :: rest, frontier =>
    let b := buildBlock g sel frontier
    (b, frontier) :: buildSeqF g rest b.src_global_ids

/-- The sampled chain together with, for each block, the seed set used to
build it (chain order, layer 1 first, like `sampleChain`). -/
def sampleChainF (g : Graph) (sels : List Selector) (seeds : List Nat) : List (Block × List Nat) :=
  (buildSeqF g sels seeds).reverse

/-- The full-neighbor sampler: a graph and a layer count. -/
structure FullNeighborBlockSampler where
  g : Graph
  num_layers : Nat

/-- `FullNeighborBlockSampler.sample`: build `num_layers` blocks bottom-up
with full-neighbor selection at every layer, prepending each block. -/
def FullNeighborBlockSampler.sample (s : FullNeighborBlockSampler) (seeds : List Nat) :
    List Block :=
  sampleChain s.g (List.replicate s.num_layers fullSelector) seeds

/-- The fixed-fanout sampler: a graph and one fanout per layer. -/
structure NeighborSampler where
  g : Graph
  num_fanouts : List Nat

/-- `NeighborSampler.__init__`: stores the graph and the fanout list.  No
validation of any kind is performed. -/
def NeighborSampler.init (g : Graph) (num_fanouts : List Nat) : NeighborSampler :=
  { g := g, num_fanouts := num_fanouts }

/-- `NeighborSampler.sample`, with the per-step random neighbor choices
made explicit as a list of selectors in construction order (the source
iterates `reversed(num_fanouts)`, so construction step `t` corresponds to
fanout `num_fanouts.reverse[t]`). -/
def NeighborSampler.sampleWith (s : NeighborSampler) (sels : List Selector)
    (seeds : List Nat) : List Block :=
  sampleChain s.g sels seeds

/-- A selector behaves as full-neighbor selection. -/
def IsFullSel (sel : Selector) : Prop :=
  ∀ v es, sel v es = es

/-- A selector implements fixed-fanout-`k` sampling without replacement:
it returns a sublist of the incident edges of length `min k (degree)`. -/
def IsFanoutSel (k : Nat) (sel : Selector) : Prop :=
  ∀ v es, (sel v es).Sublist es ∧ (sel v es).length = min k es.length

/-- The explicit selector list matches a `NeighborSampler`'s fanout
configuration: one selector per fanout, construction order reversed. -/
def MatchesFanouts (nf : List Nat) (sels : List Selector) : Prop :=
  sels.length = nf.length ∧
  ∀ t, t < sels.length → IsFanoutSel (nf.reverse.getD t 0) (sels.getD t fullSelector)

/-- Number of block edges whose local destination index is `j` (the
destination node's in-degree within the block). -/
def blockInDeg (b : Block) (j : Nat) : Nat :=
  (b.edges.filter (fun e => e.2 = j)).length

/-- Mean of a list of rationals, zero on the empty list (DGL's mean
aggregation over zero messages yields zero). -/
def ratMean (l : List ℚ) : ℚ :=
  if l.length = 0 then 0 else l.sum / l.length

/-- `SAGENet.propagate`: slice the first `D` rows of the src-side features
as the dst-side self features, aggregate the mean of incoming messages per
destination node over the block's edges, and apply the per-row transform
`φ` (the concat + linear + activation of the SAGE layer) to the pair. -/
def SAGENet.propagate (φ : ℚ → ℚ → ℚ) (b : Block) (h : List ℚ) : List ℚ :=
  (List.range b.dst_global_ids.length).map (fun j =>
    φ (h.getD j 0)
      (ratMean ((b.edges.filter (fun e => e.2 = j)).map (fun e => h.getD e.1 0))))

/-- Split a node-id list into consecutive chunks of size `bs` (the
`range(0, N, batch_size)` slicing loop); empty for `bs = 0`, a case the
source never reaches (Python `range` would reject step 0). -/
def chunksList (l : List Nat) (bs : Nat) : List (List Nat) :=
  if _h : l = [] ∨ bs = 0 then [] else l.take bs :: chunksList (l.drop bs) bs
termination_by l.length
decreasing_by
  push_neg at _h
  have hl : 0 < l.length := List.length_pos.mpr _h.1
  simp only [List.length_drop]
  omega

/-- `inference_with_sagenet`: for each layer transform, iterate over
sequential batches of all node ids, build a single-layer full-neighbor
block per batch, gather that block's src features from the running
representation buffer, propagate, and concatenate the batch outputs in
batch order as the next buffer. -/
def inference_with_sagenet (φs : List (ℚ → ℚ → ℚ)) (g : Graph)
    (input_features : List ℚ) (batch_size : Nat) : List ℚ :=
  φs.foldl (fun h φ =>
    (chunksList (List.range g.numNodes) batch_size).flatMap (fun batch =>
      let block := (FullNeighborBlockSampler.sample ⟨g, 1⟩ batch).getD 0 emptyBlock
      SAGENet.propagate φ block (block.src_global_ids.map (fun v => h.getD v 0))))
    input_features

/-- Follows the spec's words for the unbatched side of the
inference-consistency property: apply the layer transform once over the
whole graph's in-subgraph (the single full-neighbor block whose seeds are
all nodes), with no batching. -/
def wholeGraphLayer (φ : ℚ → ℚ → ℚ) (g : Graph) (feats : List ℚ) : List ℚ :=
  let block := buildBlock g fullSelector (List.range g.numNodes)
  SAGENet.propagate φ block (block.src_global_ids.map (fun v => feats.getD v 0))

/-- The concrete graph of the edge-correctness property: edges
(0,4),(2,4),(7,4),(0,6),(2,6). -/
def exampleGraph5 : Graph :=
  { numNodes := 8, edges := [(0,4),(2,4),(7,4),(0,6),(2,6)] }

/-! ### Deduplication lemmas -/

theorem mem_dedupFirstAux {x : Nat} :
    ∀ (l seen : List Nat), x ∈ dedupFirstAux seen l ↔ x ∈ l ∧ x ∉ seen
  | [], seen => by simp [dedupFirstAux]
  | a :: as, seen => by
    by_cases ha : a ∈ seen
    · rw [dedupFirstAux, if_pos ha, mem_dedupFirstAux as seen]
      simp only [List.mem_cons]
      constructor
      · rintro ⟨hx, hn⟩
        exact ⟨Or.inr hx, hn⟩
      · rintro ⟨hx | hx, hn⟩
        · exact absurd (hx ▸ ha) hn
        · exact ⟨hx, hn⟩
    · rw [dedupFirstAux, if_neg ha]
      simp only [List.mem_cons, mem_dedupFirstAux as (a :: seen)]
      constructor
      · rintro (rfl | ⟨hx, hn⟩)
        · exact ⟨Or.inl rfl, ha⟩
        · exact ⟨Or.inr hx, fun hc => hn (Or.inr hc)⟩
      · rintro ⟨hx | hx, hn⟩
        · exact Or.inl hx
        · by_cases hxa : x = a
          · exact Or.inl hxa
          · exact Or.inr ⟨hx, by simp [List.mem_cons, hxa, hn]⟩

theorem nodup_dedupFirstAux : ∀ (l seen : List Nat), (dedupFirstAux seen l).Nodup
  | [], _ => by simp [dedupFirstAux]
  | a :: as, seen => by
    by_cases ha : a ∈ seen
    · rw [dedupFirstAux, if_pos ha]
      exact nodup_dedupFirstAux as seen
    · rw [dedupFirstAux, if_neg ha]
      refine List.nodup_cons.mpr ⟨?_, nodup_dedupFirstAux as (a :: seen)⟩
      intro hmem
      exact ((mem_dedupFirstAux as (a :: seen)).mp hmem).2 (List.mem_cons_self a seen)

theorem dedupFirstAux_eq_self :
    ∀ (l seen : List Nat), l.Nodup → (∀ x ∈ l, x ∉ seen) → dedupFirstAux seen l = l
  | [], _, _, _ => rfl
  | a :: as, seen, hnd, hdisj => by
    have ha : a ∉ seen := hdisj a (List.mem_cons_self a as)
    rw [dedupFirstAux, if_neg ha]
    have has : as.Nodup := (List.nodup_cons.mp hnd).2
    have hna : a ∉ as := (List.nodup_cons.mp hnd).1
    rw [dedupFirstAux_eq_self as (a :: seen) has ?_]
    intro x hx
    simp only [List.mem_cons]
    rintro (rfl | hxs)
    · exact hna hx
    · exact hdisj x (List.mem_cons_of_mem a hx) hxs

theorem dedupFirstAux_append :
    ∀ (l r seen : List Nat), l.Nodup → (∀ x ∈ l, x ∉ seen) →
      ∃ t, dedupFirstAux seen (l ++ r) = l ++ t
  | [], r, seen, _, _ => ⟨dedupFirstAux seen r, rfl⟩
  | a :: as, r, seen, hnd, hdisj => by
    have ha : a ∉ seen := hdisj a (List.mem_cons_self a as)
    rw [List.cons_append, dedupFirstAux, if_neg ha]
    have has : as.Nodup := (List.nodup_cons.mp hnd).2
    have hna : a ∉ as := (List.nodup_cons.mp hnd).1
    obtain ⟨t, ht⟩ := dedupFirstAux_append as r (a :: seen) has (by
      intro x hx
      simp only [List.mem_cons]
      rintro (rfl | hxs)
      · exact hna hx
      · exact hdisj x (List.mem_cons_of_mem a hx) hxs)
    exact ⟨t, by rw [ht, List.cons_append]⟩

theorem mem_dedupFirst {x : Nat} {l : List Nat} : x ∈ dedupFirst l ↔ x ∈ l := by
  rw [dedupFirst, mem_dedupFirstAux]
  simp

theorem nodup_dedupFirst (l : List Nat) : (dedupFirst l).Nodup :=
  nodup_dedupFirstAux l []

theorem dedupFirst_eq_self {l : List Nat} (h : l.Nodup) : dedupFirst l = l :=
  dedupFirstAux_eq_self l [] h (by simp)

theorem dedupFirst_append (l r : List Nat) (h : l.Nodup) :
    ∃ t, dedupFirst (l ++ r) = l ++ t :=
  dedupFirstAux_append l r [] h (by simp)

/-! ### Block-builder lemmas -/

theorem buildBlock_dst (g : Graph) (sel : Selector) (seeds : List Nat) :
    (buildBlock g sel seeds).dst_global_ids = dedupFirst seeds := rfl

theorem buildBlock_dst_nodup (g : Graph) (sel : Selector) (seeds : List Nat) :
    (buildBlock g sel seeds).dst_global_ids.Nodup :=
  nodup_dedupFirst seeds

theorem buildBlock_src_nodup (g : Graph) (sel : Selector) (seeds : List Nat) :
    (buildBlock g sel seeds).src_global_ids.Nodup :=
  nodup_dedupFirst _

theorem buildBlock_src_append (g : Graph) (sel : Selector) (seeds : List Nat) :
    ∃ t, (buildBlock g sel seeds).src_global_ids
      = (buildBlock g sel seeds).dst_global_ids ++ t := by
  exact dedupFirst_append _ _ (nodup_dedupFirst seeds)

theorem buildBlock_take (g : Graph) (sel : Selector) (seeds : List Nat) :
    (buildBlock g sel seeds).src_global_ids.take
        (buildBlock g sel seeds).dst_global_ids.length
      = (buildBlock g sel seeds).dst_global_ids := by
  obtain ⟨t, ht⟩ := buildBlock_src_append g sel seeds
  rw [ht, List.take_left]

/-! ### Chain lemmas -/

theorem sampleChainAux_blocks (g : Graph) :
    ∀ (sels : List Selector) (fr : List Nat) (acc : List Block),
      ∀ b ∈ sampleChainAux g sels fr acc,
        (∃ sel fr2, b = buildBlock g sel fr2) ∨ b ∈ acc
  | [], _, _, _, hb => Or.inr hb
  | sel :: rest, fr, acc, b, hb => by
    rw [sampleChainAux] at hb
    rcases sampleChainAux_blocks g rest _ _ b hb with h | h
    · exact Or.inl h
    · rcases List.mem_cons.mp h with rfl | h2
      · exact Or.inl ⟨sel, fr, rfl⟩
      · exact Or.inr h2

theorem sampleChain_blocks (g : Graph) (sels : List Selector) (seeds : List Nat) :
    ∀ b ∈ sampleChain g sels seeds, ∃ sel fr, b = buildBlock g sel fr := by
  intro b hb
  rcases sampleChainAux_blocks g sels seeds [] b hb with h | h
  · exact h
  · simp at h

theorem sampleChainAux_length (g : Graph) :
    ∀ (sels : List Selector) (fr : List Nat) (acc : List Block),
      (sampleChainAux g sels fr acc).length = sels.length + acc.length
  | [], _, acc => by simp [sampleChainAux]
  | sel :: rest, fr, acc => by
    rw [sampleChainAux, sampleChainAux_length g rest]
    simp
    omega

theorem sampleChain_length (g : Graph) (sels : List Selector) (seeds : List Nat) :
    (sampleChain g sels seeds).length = sels.length := by
  rw [sampleChain, sampleChainAux_length]
  simp

theorem sampleChainAux_chain (g : Graph) :
    ∀ (sels : List Selector) (fr : List Nat) (acc : List Block),
      List.Chain' (fun a b => a.dst_global_ids = b.src_global_ids) acc →
      (∀ b, acc.head? = some b → dedupFirst fr = b.src_global_ids) →
      List.Chain' (fun a b => a.dst_global_ids = b.src_global_ids)
        (sampleChainAux g sels fr acc)
  | [], _, _, hacc, _ => hacc
  | sel :: rest, fr, acc, hacc, hfr => by
    rw [sampleChainAux]
    refine sampleChainAux_chain g rest _ _ ?_ ?_
    · refine List.chain'_cons'.mpr ⟨?_, hacc⟩
      intro y hy
      rw [buildBlock_dst]
      exact hfr y hy
    · intro b hb
      simp only [List.head?_cons, Option.some.injEq] at hb
      rw [← hb]
      exact dedupFirst_eq_self (buildBlock_src_nodup g sel fr)

theorem sampleChain_chain (g : Graph) (sels : List Selector) (seeds : List Nat) :
    List.Chain' (fun a b => a.dst_global_ids = b.src_global_ids)
      (sampleChain g sels seeds) := by
  refine sampleChainAux_chain g sels seeds [] ?_ ?_
  · exact List.chain'_nil
  · intro b hb
    simp at hb

theorem buildSeqF_length (g : Graph) :
    ∀ (sels : List Selector) (fr : List Nat), (buildSeqF g sels fr).length = sels.length
  | [], _ => rfl
  | sel :: rest, fr => by
    rw [buildSeqF]
    simp only [List.length_cons, buildSeqF_length g rest]

theorem sampleChainAux_eq_buildSeqF (g : Graph) :
    ∀ (sels : List Selector) (fr : List Nat) (acc : List Block),
      sampleChainAux g sels fr acc = ((buildSeqF g sels fr).map Prod.fst).reverse ++ acc
  | [], _, acc => by simp [sampleChainAux, buildSeqF]
  | sel :: rest, fr, acc => by
    rw [sampleChainAux, buildSeqF, sampleChainAux_eq_buildSeqF g rest]
    simp

theorem sampleChain_eq_chainF (g : Graph) (sels : List Selector) (seeds : List Nat) :
    sampleChain g sels seeds = (sampleChainF g sels seeds).map Prod.fst := by
  rw [sampleChain, sampleChainAux_eq_buildSeqF, sampleChainF, ← List.map_reverse]
  simp

theorem buildSeqF_dst (g : Graph) :
    ∀ (sels : List Selector) (fr : List Nat),
      ∀ p ∈ buildSeqF g sels fr, p.1.dst_global_ids = dedupFirst p.2
  | [], _, p, hp => by simp [buildSeqF] at hp
  | sel :: rest, fr, p, hp => by
    rw [buildSeqF] at hp
    rcases List.mem_cons.mp hp with rfl | h2
    · exact buildBlock_dst g sel fr
    · exact buildSeqF_dst g rest _ p h2

theorem buildSeqF_link (g : Graph) :
    ∀ (sels : List Selector) (fr : List Nat),
      List.Chain' (fun p q => q.2 = p.1.src_global_ids) (buildSeqF g sels fr)
  | [], _ => List.chain'_nil
  | sel :: rest, fr => by
    rw [buildSeqF]
    refine List.chain'_cons'.mpr ⟨?_, buildSeqF_link g rest _⟩
    intro q hq
    match rest with
    | [] => simp [buildSeqF] at hq
    | sel2 :: rest2 =>
      rw [buildSeqF] at hq
      simp only [List.head?_cons, Option.mem_def, Option.some.injEq] at hq
      subst hq
      rfl

theorem buildSeqF_getD (g : Graph) :
    ∀ (sels : List Selector) (fr : List Nat) (t : Nat), t < sels.length →
      ∃ fr2, (buildSeqF g sels fr).getD t (emptyBlock, [])
        = (buildBlock g (sels.getD t fullSelector) fr2, fr2)
  | [], _, t, ht => by simp at ht
  | sel :: rest, fr, 0, _ => ⟨fr, rfl⟩
  | sel :: rest, fr, t + 1, ht => by
    rw [buildSeqF]
    simp only [List.getD_cons_succ]
    exact buildSeqF_getD g rest _ t (by simpa using Nat.lt_of_succ_lt_succ ht)

/-! ### Degenerate and full-selection lemmas -/

theorem buildBlock_empty (g : Graph) (sel : Selector) : buildBlock g sel [] = emptyBlock := rfl

theorem sampleChainAux_empty (g : Graph) :
    ∀ (sels : List Selector) (acc : List Block),
      sampleChainAux g sels [] acc = List.replicate sels.length emptyBlock ++ acc
  | [], acc => by simp [sampleChainAux]
  | sel :: rest, acc => by
    rw [sampleChainAux, buildBlock_empty g sel]
    show sampleChainAux g rest [] (emptyBlock :: acc)
      = List.replicate (sel :: rest).length emptyBlock ++ acc
    rw [sampleChainAux_empty g rest]
    simp [List.replicate_succ']

theorem buildBlock_fullSel (g : Graph) {sel : Selector} (hsel : IsFullSel sel)
    (seeds : List Nat) : buildBlock g sel seeds = buildBlock g fullSelector seeds := by
  have h' : ∀ v es, sel v es = es := hsel
  unfold buildBlock fullSelector
  simp only [h']

theorem sampleChainAux_fullSels (g : Graph) :
    ∀ (sels : List Selector) (fr : List Nat) (acc : List Block),
      (∀ sel ∈ sels, IsFullSel sel) →
      sampleChainAux g sels fr acc
        = sampleChainAux g (List.replicate sels.length fullSelector) fr acc
  | [], _, _, _ => rfl
  | sel :: rest, fr, acc, hf => by
    rw [sampleChainAux, List.length_cons, List.replicate_succ, sampleChainAux]
    rw [buildBlock_fullSel g (hf sel (List.mem_cons_self sel rest)) fr]
    exact sampleChainAux_fullSels g rest _ _ (fun s hs => hf s (List.mem_cons_of_mem sel hs))

/-! ### Fanout-degree lemmas -/

theorem buildBlock_edges (g : Graph) (sel : Selector) (seeds : List Nat) :
    (buildBlock g sel seeds).edges
      = ((dedupFirst seeds).flatMap (fun v => sel v (inEdges g v))).map
          (fun e => ((buildBlock g sel seeds).src_global_ids.indexOf e.1,
                     (dedupFirst seeds).indexOf e.2)) := rfl

theorem inEdges_snd (g : Graph) (v : Nat) : ∀ e ∈ inEdges g v, e.2 = v := by
  intro e he
  have := (List.mem_filter.mp he).2
  simpa using this

theorem sum_map_ite_eq :
    ∀ (l : List Nat), l.Nodup → ∀ (c : Nat), c ∈ l → ∀ (F : Nat → Nat),
      (l.map (fun v => if v = c then F v else 0)).sum = F c
  | [], _, c, hc, _ => by simp at hc
  | a :: as, hnd, c, hc, F => by
    by_cases hac : a = c
    · subst hac
      simp only [List.map_cons, List.sum_cons]
      have hz : (as.map (fun v => if v = a then F v else 0)).sum = 0 := by
        apply List.sum_eq_zero
        intro x hx
        obtain ⟨v, hv, rfl⟩ := List.mem_map.mp hx
        exact if_neg (fun (h : v = a) => (List.nodup_cons.mp hnd).1 (h ▸ hv))
      rw [hz]
      simp
    · have hcs : c ∈ as := by
        rcases List.mem_cons.mp hc with h1 | h1
        · exact absurd h1.symm hac
        · exact h1
      simp only [List.map_cons, List.sum_cons, if_neg hac]
      rw [sum_map_ite_eq as (List.nodup_cons.mp hnd).2 c hcs F]
      omega

theorem buildBlock_fanout_deg (g : Graph) (sel : Selector) (k : Nat)
    (hsel : IsFanoutSel k sel) (seeds : List Nat) (j : Nat)
    (hj : j < (buildBlock g sel seeds).dst_global_ids.length) :
    blockInDeg (buildBlock g sel seeds) j
      = min k (inDegree g ((buildBlock g sel seeds).dst_global_ids.getD j 0)) := by
  have hdstd : (buildBlock g sel seeds).dst_global_ids = dedupFirst seeds := rfl
  set dst := dedupFirst seeds with hdst
  have hnd : dst.Nodup := nodup_dedupFirst seeds
  rw [hdstd] at hj ⊢
  rw [blockInDeg, ← List.countP_eq_length_filter, buildBlock_edges, List.countP_map,
    List.countP_flatMap]
  have hc : dst.getD j 0 ∈ dst := by
    rw [List.getD_eq_getElem dst 0 hj]
    exact List.getElem_mem hj
  have key : ∀ v ∈ dst,
      (List.countP ((fun e => decide (e.2 = j)) ∘
          (fun e => ((buildBlock g sel seeds).src_global_ids.indexOf e.1, dst.indexOf e.2)))
        (sel v (inEdges g v)))
        = if v = dst.getD j 0 then (sel v (inEdges g v)).length else 0 := by
    intro v hv
    by_cases hvj : v = dst.getD j 0
    · rw [if_pos hvj]
      apply List.countP_eq_length.mpr
      intro e he
      have he2 : e.2 = v := inEdges_snd g v e ((hsel v (inEdges g v)).1.subset he)
      simp only [Function.comp_apply, he2, decide_eq_true_eq]
      rw [hvj]
      rw [List.getD_eq_getElem dst 0 hj]
      exact List.indexOf_getElem hnd j hj
    · rw [if_neg hvj]
      apply List.countP_eq_zero.mpr
      intro e he
      have he2 : e.2 = v := inEdges_snd g v e ((hsel v (inEdges g v)).1.subset he)
      simp only [Function.comp_apply, he2, decide_eq_true_eq]
      have hvlt : dst.indexOf v < dst.length := List.indexOf_lt_length.mpr hv
      intro hidx
      apply hvj
      rw [← hidx, List.getD_eq_getElem dst 0 hvlt]
      exact (List.getElem_indexOf hvlt).symm
  rw [List.map_congr_left (fun v hv => by rw [Function.comp_apply, key v hv])]
  have := sum_map_ite_eq dst hnd (dst.getD j 0) hc
    (fun v => (sel v (inEdges g v)).length)
  rw [this, (hsel (dst.getD j 0) (inEdges g (dst.getD j 0))).2, inDegree]

/-! ### Propagation lemmas -/

theorem range_map_getD {β : Type} (F : Nat → β) :
    ∀ (l : List Nat), (List.range l.length).map (fun j => F (l.getD j 0)) = l.map F
  | [] => rfl
  | a :: as => by
    have hcomp : ((fun j => F ((a :: as).getD j 0)) ∘ Nat.succ)
        = (fun j => F (as.getD j 0)) := by
      funext j
      rfl
    rw [List.length_cons, List.range_succ_eq_map, List.map_cons, List.map_map, hcomp,
      range_map_getD F as, List.map_cons]
    rfl

theorem flatMap_inEdges_filter_nil (g : Graph) (c : Nat) :
    ∀ (l : List Nat), c ∉ l →
      (l.flatMap (fun v => inEdges g v)).filter (fun e => e.2 = c) = []
  | [], _ => rfl
  | a :: as, hc => by
    rw [List.flatMap_cons, List.filter_append]
    have h1 : (inEdges g a).filter (fun e => e.2 = c) = [] := by
      rw [List.filter_eq_nil_iff]
      intro e he
      have h2 : e.2 = a := inEdges_snd g a e he
      simp only [h2, decide_eq_true_eq]
      rintro rfl
      exact hc (List.mem_cons_self a as)
    rw [h1, List.nil_append]
    exact flatMap_inEdges_filter_nil g c as (fun h => hc (List.mem_cons_of_mem a h))

theorem flatMap_inEdges_filter (g : Graph) (c : Nat) :
    ∀ (l : List Nat), l.Nodup → c ∈ l →
      (l.flatMap (fun v => inEdges g v)).filter (fun e => e.2 = c) = inEdges g c
  | [], _, hc => by simp at hc
  | a :: as, hnd, hc => by
    rw [List.flatMap_cons, List.filter_append]
    by_cases hac : a = c
    · subst hac
      have h1 : (inEdges g a).filter (fun e => e.2 = a) = inEdges g a := by
        rw [List.filter_eq_self]
        intro e he
        simp [inEdges_snd g a e he]
      have h2 : (as.flatMap (fun v => inEdges g v)).filter (fun e => e.2 = a) = [] :=
        flatMap_inEdges_filter_nil g a as (List.nodup_cons.mp hnd).1
      rw [h1, h2, List.append_nil]
    · have hcs : c ∈ as := by
        rcases List.mem_cons.mp hc with h1 | h1
        · exact absurd h1.symm hac
        · exact h1
      have h1 : (inEdges g a).filter (fun e => e.2 = c) = [] := by
        rw [List.filter_eq_nil_iff]
        intro e he
        have h2 : e.2 = a := inEdges_snd g a e he
        simp only [h2, decide_eq_true_eq]
        exact fun h => hac h
      rw [h1, List.nil_append]
      exact flatMap_inEdges_filter g c as (List.nodup_cons.mp hnd).2 hcs

theorem buildBlock_src (g : Graph) (sel : Selector) (seeds : List Nat) :
    (buildBlock g sel seeds).src_global_ids
      = dedupFirst (dedupFirst seeds
          ++ ((dedupFirst seeds).flatMap (fun v => sel v (inEdges g v))).map Prod.fst) := rfl

theorem buildBlock_srcMem (g : Graph) (sel : Selector) (seeds : List Nat) :
    ∀ e ∈ (dedupFirst seeds).flatMap (fun v => sel v (inEdges g v)),
      e.1 ∈ (buildBlock g sel seeds).src_global_ids := by
  intro e he
  rw [buildBlock_src, mem_dedupFirst]
  exact List.mem_append.mpr (Or.inr (List.mem_map.mpr ⟨e, he, rfl⟩))

theorem buildBlock_src_getD (g : Graph) (sel : Selector) (seeds : List Nat) (j : Nat)
    (hj : j < (buildBlock g sel seeds).dst_global_ids.length) :
    (buildBlock g sel seeds).src_global_ids.getD j 0
      = (buildBlock g sel seeds).dst_global_ids.getD j 0 := by
  obtain ⟨t, ht⟩ := buildBlock_src_append g sel seeds
  have hjs : j < (buildBlock g sel seeds).src_global_ids.length := by
    rw [ht, List.length_append]
    omega
  rw [List.getD_eq_getElem _ 0 hjs, List.getD_eq_getElem _ 0 hj]
  rw [List.getElem_of_eq ht hjs]
  exact List.getElem_append_left hj

theorem indexOf_eq_iff_getD {l : List Nat} (hnd : l.Nodup) {v j : Nat} (hv : v ∈ l)
    (hj : j < l.length) : l.indexOf v = j ↔ v = l.getD j 0 := by
  have hvlt : l.indexOf v < l.length := List.indexOf_lt_length.mpr hv
  constructor
  · intro hidx
    rw [← hidx, List.getD_eq_getElem l 0 hvlt]
    exact (List.getElem_indexOf hvlt).symm
  · intro hveq
    rw [hveq, List.getD_eq_getElem l 0 hj]
    exact List.indexOf_getElem hnd j hj

theorem fullSelector_flatMap (g : Graph) (l : List Nat) :
    l.flatMap (fun v => fullSelector v (inEdges g v)) = l.flatMap (fun v => inEdges g v) := rfl

theorem buildBlock_msgs_full (g : Graph) (seeds : List Nat) (hnd : seeds.Nodup)
    (feats : List ℚ) (j : Nat) (hj : j < seeds.length) :
    (((buildBlock g fullSelector seeds).edges.filter (fun e => e.2 = j)).map
        (fun e => ((buildBlock g fullSelector seeds).src_global_ids.map
          (fun v => feats.getD v 0)).getD e.1 0))
      = (inEdges g (seeds.getD j 0)).map (fun e => feats.getD e.1 0) := by
  have hded : dedupFirst seeds = seeds := dedupFirst_eq_self hnd
  have hc : seeds.getD j 0 ∈ seeds := by
    rw [List.getD_eq_getElem seeds 0 hj]
    exact List.getElem_mem hj
  rw [buildBlock_edges g fullSelector seeds, hded, fullSelector_flatMap,
    List.filter_map, List.map_map]
  have hfc : List.filter
        ((fun (e : Nat × Nat) => decide (e.2 = j)) ∘ fun e =>
          (List.indexOf e.1 (buildBlock g fullSelector seeds).src_global_ids,
            List.indexOf e.2 seeds))
        (seeds.flatMap fun v => inEdges g v)
      = List.filter (fun e => e.2 = seeds.getD j 0) (seeds.flatMap fun v => inEdges g v) := by
    apply List.filter_congr
    intro e he
    obtain ⟨v, hv, hev⟩ := List.mem_flatMap.mp he
    have he2 : e.2 = v := inEdges_snd g v e hev
    simp only [Function.comp_apply, he2]
    exact decide_eq_decide.mpr (indexOf_eq_iff_getD hnd hv hj)
  rw [hfc, flatMap_inEdges_filter g (seeds.getD j 0) seeds hnd hc]
  apply List.map_congr_left
  intro e he
  have heS : e ∈ seeds.flatMap (fun v => inEdges g v) :=
    List.mem_flatMap.mpr ⟨seeds.getD j 0, hc, he⟩
  have heM : e ∈ (dedupFirst seeds).flatMap (fun v => fullSelector v (inEdges g v)) := by
    rw [hded, fullSelector_flatMap]
    exact heS
  have hmem : e.1 ∈ (buildBlock g fullSelector seeds).src_global_ids :=
    buildBlock_srcMem g fullSelector seeds e heM
  have hlt : List.indexOf e.1 (buildBlock g fullSelector seeds).src_global_ids
      < (buildBlock g fullSelector seeds).src_global_ids.length :=
    List.indexOf_lt_length.mpr hmem
  have hltm : List.indexOf e.1 (buildBlock g fullSelector seeds).src_global_ids
      < (List.map (fun v => feats.getD v 0)
          (buildBlock g fullSelector seeds).src_global_ids).length := by
    rw [List.length_map]
    exact hlt
  simp only [Function.comp_apply]
  rw [List.getD_eq_getElem _ 0 hltm, List.getElem_map]
  congr 1
  exact List.getElem_indexOf hlt

theorem propagate_buildBlock_full (g : Graph) (φ : ℚ → ℚ → ℚ) (feats : List ℚ)
    (seeds : List Nat) (hnd : seeds.Nodup) :
    SAGENet.propagate φ (buildBlock g fullSelector seeds)
        ((buildBlock g fullSelector seeds).src_global_ids.map (fun v => feats.getD v 0))
      = seeds.map (fun v =>
          φ (feats.getD v 0)
            (ratMean ((inEdges g v).map (fun e => feats.getD e.1 0)))) := by
  have hdst : (buildBlock g fullSelector seeds).dst_global_ids = seeds := by
    rw [buildBlock_dst, dedupFirst_eq_self hnd]
  rw [SAGENet.propagate, hdst,
    ← range_map_getD (fun v =>
      φ (feats.getD v 0) (ratMean ((inEdges g v).map (fun e => feats.getD e.1 0)))) seeds]
  apply List.map_congr_left
  intro j hjr
  have hj : j < seeds.length := List.mem_range.mp hjr
  have hjd : j < (buildBlock g fullSelector seeds).dst_global_ids.length := by
    rw [hdst]
    exact hj
  congr 1
  · have hjs : j < (buildBlock g fullSelector seeds).src_global_ids.length := by
      obtain ⟨t, ht⟩ := buildBlock_src_append g fullSelector seeds
      rw [ht, List.length_append, hdst]
      omega
    have hjm : j < ((buildBlock g fullSelector seeds).src_global_ids.map
        (fun v => feats.getD v 0)).length := by
      rw [List.length_map]
      exact hjs
    rw [List.getD_eq_getElem _ 0 hjm, List.getElem_map]
    congr 1
    rw [← List.getD_eq_getElem _ 0 hjs, buildBlock_src_getD g fullSelector seeds j hjd, hdst]
  · congr 1
    exact buildBlock_msgs_full g seeds hnd feats j hj

theorem chunksList_sublist :
    ∀ (l : List Nat) (bs : Nat), ∀ ch ∈ chunksList l bs, ch.Sublist l := by
  intro l bs
  induction l, bs using chunksList.induct with
  | case1 l bs h =>
    intro ch hch
    rw [chunksList, dif_pos h] at hch
    simp at hch
  | case2 l bs h ih =>
    intro ch hch
    rw [chunksList, dif_neg h] at hch
    rcases List.mem_cons.mp hch with rfl | h2
    · exact List.take_sublist bs l
    · exact (ih ch h2).trans (List.drop_sublist bs l)

theorem chunksList_flatten :
    ∀ (l : List Nat) (bs : Nat), 0 < bs → (chunksList l bs).flatten = l := by
  intro l bs
  induction l, bs using chunksList.induct with
  | case1 l bs h =>
    intro hbs
    rw [chunksList, dif_pos h]
    rcases h with h | h
    · simp [h]
    · omega
  | case2 l bs h ih =>
    intro hbs
    rw [chunksList, dif_neg h, List.flatten_cons, ih hbs, List.take_append_drop]

theorem fullSample_one (g : Graph) (batch : List Nat) :
    FullNeighborBlockSampler.sample ⟨g, 1⟩ batch = [buildBlock g fullSelector batch] := rfl

theorem flatMap_self_eq_flatten {α : Type} (l : List (List α)) :
    l.flatMap (fun a => a) = l.flatten :=
  List.flatMap_id l


theorem takeSelector_fanout (k : Nat) : IsFanoutSel k (takeSelector k) :=
  fun _ es => ⟨List.take_sublist k es, List.length_take k es⟩

theorem getD_reverse {α : Type} (l : List α) (d : α) (i : Nat) (hi : i < l.length) :
    l.reverse.getD i d = l.getD (l.length - 1 - i) d := by
  have hir : i < l.reverse.length := by
    rw [List.length_reverse]
    exact hi
  have hlt : l.length - 1 - i < l.length := by omega
  rw [List.getD_eq_getElem _ d hir, List.getD_eq_getElem _ d hlt, List.getElem_reverse]

/-! ### Claim theorems -/

/-- C1: for every block produced by either sampler, for every seed set,
`dst_global_ids` equals the first `D` elements of `src_global_ids`
(`D` = number of destination nodes), element for element and in order. -/
theorem claim1_dst_eq_src_take :
    (∀ (s : FullNeighborBlockSampler) (seeds : List Nat), ∀ b ∈ s.sample seeds,
        b.src_global_ids.take b.dst_global_ids.length = b.dst_global_ids)
    ∧ (∀ (ns : NeighborSampler) (sels : List Selector) (seeds : List Nat),
        ∀ b ∈ ns.sampleWith sels seeds,
          b.src_global_ids.take b.dst_global_ids.length = b.dst_global_ids) := by
  constructor
  · intro s seeds b hb
    obtain ⟨sel, fr, rfl⟩ := sampleChain_blocks s.g _ seeds b hb
    exact buildBlock_take s.g sel fr
  · intro ns sels seeds b hb
    obtain ⟨sel, fr, rfl⟩ := sampleChain_blocks ns.g sels seeds b hb
    exact buildBlock_take ns.g sel fr

/-- Witness for C1: the first block of a concrete 2-layer full-neighbor
chain and a concrete fixed-fanout chain on the 5-edge graph. -/
theorem claim1_witness :
    (((FullNeighborBlockSampler.sample ⟨exampleGraph5, 2⟩ [4, 6]).getD 0
        emptyBlock).src_global_ids.take
      ((FullNeighborBlockSampler.sample ⟨exampleGraph5, 2⟩ [4, 6]).getD 0
        emptyBlock).dst_global_ids.length
      = ((FullNeighborBlockSampler.sample ⟨exampleGraph5, 2⟩ [4, 6]).getD 0
        emptyBlock).dst_global_ids)
    ∧ ((((NeighborSampler.init exampleGraph5 [1]).sampleWith [takeSelector 1]
        [4, 6]).getD 0 emptyBlock).src_global_ids.take
      (((NeighborSampler.init exampleGraph5 [1]).sampleWith [takeSelector 1]
        [4, 6]).getD 0 emptyBlock).dst_global_ids.length
      = (((NeighborSampler.init exampleGraph5 [1]).sampleWith [takeSelector 1]
        [4, 6]).getD 0 emptyBlock).dst_global_ids) :=
  ⟨claim1_dst_eq_src_take.1 ⟨exampleGraph5, 2⟩ [4, 6] _ (by decide),
   claim1_dst_eq_src_take.2 (NeighborSampler.init exampleGraph5 [1]) [takeSelector 1]
     [4, 6] _ (by decide)⟩

/-- C4: on the graph with edges (0,4),(2,4),(7,4),(0,6),(2,6), one
full-neighbor block for seeds [4,6] has `src_global_ids = [4,6,0,2,7]`
(4 and 6 first) and its edges, mapped back to global ids, are exactly
(0,4),(2,4),(7,4),(0,6),(2,6). -/
theorem claim4_edge_correctness :
    ((FullNeighborBlockSampler.sample ⟨exampleGraph5, 1⟩ [4, 6]).getD 0
        emptyBlock).src_global_ids = [4, 6, 0, 2, 7] ∧
    (((FullNeighborBlockSampler.sample ⟨exampleGraph5, 1⟩ [4, 6]).getD 0
        emptyBlock).edges.map (fun e =>
          (((FullNeighborBlockSampler.sample ⟨exampleGraph5, 1⟩ [4, 6]).getD 0
            emptyBlock).src_global_ids.getD e.1 0,
           ((FullNeighborBlockSampler.sample ⟨exampleGraph5, 1⟩ [4, 6]).getD 0
            emptyBlock).dst_global_ids.getD e.2 0)))
      = [(0, 4), (2, 4), (7, 4), (0, 6), (2, 6)] := by
  decide

/-- C5: for every block produced by either sampler from any seed input
(duplicates allowed), `src_global_ids` and `dst_global_ids` each contain
no repeated global id. -/
theorem claim5_nodup_ids :
    (∀ (s : FullNeighborBlockSampler) (seeds : List Nat), ∀ b ∈ s.sample seeds,
        b.src_global_ids.Nodup ∧ b.dst_global_ids.Nodup)
    ∧ (∀ (ns : NeighborSampler) (sels : List Selector) (seeds : List Nat),
        ∀ b ∈ ns.sampleWith sels seeds,
          b.src_global_ids.Nodup ∧ b.dst_global_ids.Nodup) := by
  constructor
  · intro s seeds b hb
    obtain ⟨sel, fr, rfl⟩ := sampleChain_blocks s.g _ seeds b hb
    exact ⟨buildBlock_src_nodup s.g sel fr, buildBlock_dst_nodup s.g sel fr⟩
  · intro ns sels seeds b hb
    obtain ⟨sel, fr, rfl⟩ := sampleChain_blocks ns.g sels seeds b hb
    exact ⟨buildBlock_src_nodup ns.g sel fr, buildBlock_dst_nodup ns.g sel fr⟩

/-- Witness for C5: a duplicated seed list [4,6,4] on the 5-edge graph. -/
theorem claim5_witness :
    ((FullNeighborBlockSampler.sample ⟨exampleGraph5, 1⟩ [4, 6, 4]).getD 0
        emptyBlock).src_global_ids.Nodup ∧
    ((FullNeighborBlockSampler.sample ⟨exampleGraph5, 1⟩ [4, 6, 4]).getD 0
        emptyBlock).dst_global_ids.Nodup :=
  claim5_nodup_ids.1 ⟨exampleGraph5, 1⟩ [4, 6, 4] _ (by decide)

/-- C6: sampling with an empty seed collection succeeds and returns a
chain of L blocks, each with zero destination nodes, for both samplers. -/
theorem claim6_empty_seeds :
    (∀ (s : FullNeighborBlockSampler),
        (s.sample []).length = s.num_layers ∧
          ∀ b ∈ s.sample [], b.dst_global_ids = [])
    ∧ (∀ (ns : NeighborSampler) (sels : List Selector),
        sels.length = ns.num_fanouts.length →
          (ns.sampleWith sels []).length = ns.num_fanouts.length ∧
            ∀ b ∈ ns.sampleWith sels [], b.dst_global_ids = []) := by
  have hgen : ∀ (g : Graph) (sels : List Selector),
      sampleChain g sels [] = List.replicate sels.length emptyBlock := by
    intro g sels
    rw [sampleChain, sampleChainAux_empty]
    simp
  constructor
  · intro s
    constructor
    · rw [FullNeighborBlockSampler.sample, hgen, List.length_replicate,
        List.length_replicate]
    · intro b hb
      rw [FullNeighborBlockSampler.sample, hgen] at hb
      rw [List.eq_of_mem_replicate hb]
      rfl
  · intro ns sels hlen
    constructor
    · rw [NeighborSampler.sampleWith, hgen, List.length_replicate, hlen]
    · intro b hb
      rw [NeighborSampler.sampleWith, hgen] at hb
      rw [List.eq_of_mem_replicate hb]
      rfl

/-- Witness for C6: a 2-fanout sampler invoked with no seeds. -/
theorem claim6_witness :
    ((NeighborSampler.init exampleGraph5 [2, 2]).sampleWith
        [takeSelector 2, takeSelector 2] []).length = ([2, 2] : List Nat).length ∧
    ∀ b ∈ (NeighborSampler.init exampleGraph5 [2, 2]).sampleWith
        [takeSelector 2, takeSelector 2] [], b.dst_global_ids = [] :=
  claim6_empty_seeds.2 (NeighborSampler.init exampleGraph5 [2, 2])
    [takeSelector 2, takeSelector 2] (by decide)

/-- C10: in every chain returned by either sampler, chain[k]'s
`dst_global_ids` equals chain[k+1]'s `src_global_ids` element for element
in the same order, for every adjacent pair. -/
theorem claim10_chain_link :
    (∀ (s : FullNeighborBlockSampler) (seeds : List Nat),
        List.Chain' (fun a b => a.dst_global_ids = b.src_global_ids)
          (s.sample seeds))
    ∧ (∀ (ns : NeighborSampler) (sels : List Selector) (seeds : List Nat),
        List.Chain' (fun a b => a.dst_global_ids = b.src_global_ids)
          (ns.sampleWith sels seeds)) :=
  ⟨fun s seeds => sampleChain_chain s.g _ seeds,
   fun ns sels seeds => sampleChain_chain ns.g sels seeds⟩

/-- C2 counterexample: on the 5-edge graph with seeds [4,6] and a 2-layer
full-neighbor chain, chain[1]'s `dst_global_ids` is [4,6], while the seed
set used to build chain[0] (the frontier handed down after building
chain[1]) is [4,6,0,2,7]; the two are not equal. -/
theorem claim2_counterexample :
    ¬ (((sampleChainF exampleGraph5 [fullSelector, fullSelector] [4, 6]).getD 1
          (emptyBlock, [])).1.dst_global_ids
        = ((sampleChainF exampleGraph5 [fullSelector, fullSelector] [4, 6]).getD 0
          (emptyBlock, [])).2) := by
  decide

/-- C2 amended: it is chain[i] itself (not chain[i+1]) whose
`dst_global_ids` equals the deduplication of the seed set used to build
chain[i]; and for consecutive positions, the seed set used to build a
block is the next block's `src_global_ids`.  `sampleChainF` pairs each
block of the sampled chain with the seed set it was built from. -/
theorem claim2_amended (g : Graph) (sels : List Selector) (seeds : List Nat) :
    sampleChain g sels seeds = (sampleChainF g sels seeds).map Prod.fst ∧
    (∀ p ∈ sampleChainF g sels seeds, p.1.dst_global_ids = dedupFirst p.2) ∧
    List.Chain' (fun p q => p.2 = q.1.src_global_ids)
      (sampleChainF g sels seeds) := by
  refine ⟨sampleChain_eq_chainF g sels seeds, ?_, ?_⟩
  · intro p hp
    exact buildSeqF_dst g sels seeds p (List.mem_reverse.mp hp)
  · rw [sampleChainF, List.chain'_reverse]
    exact buildSeqF_link g sels seeds

/-- Witness for C2's amended statement on the concrete 2-layer chain. -/
theorem claim2_witness :
    ((sampleChainF exampleGraph5 [fullSelector, fullSelector] [4, 6]).getD 0
        (emptyBlock, [])).1.dst_global_ids
      = dedupFirst ((sampleChainF exampleGraph5 [fullSelector, fullSelector]
          [4, 6]).getD 0 (emptyBlock, [])).2 :=
  (claim2_amended exampleGraph5 [fullSelector, fullSelector] [4, 6]).2.1 _ (by decide)

/-- C7 counterexample: constructing a `NeighborSampler` with the
non-positive fanout 0 does not fail; it returns an ordinary sampler that
simply stores the invalid configuration. -/
theorem claim7_counterexample :
    NeighborSampler.init exampleGraph5 [0]
      = { g := exampleGraph5, num_fanouts := [0] } := rfl

/-- C7 amended: sampler construction performs no fanout validation at all:
`NeighborSampler.__init__` accepts any graph and any fanout list
(including non-positive entries) and stores them unchanged; no
configuration error is ever raised at construction time. -/
theorem claim7_no_validation (g : Graph) (nf : List Nat) :
    (NeighborSampler.init g nf).g = g ∧ (NeighborSampler.init g nf).num_fanouts = nf :=
  ⟨rfl, rfl⟩

/-- C8: full-neighbor sampling is deterministic and idempotent: any two
runs whose selectors all behave as full-neighbor selection produce the
same chain, which is the chain of `FullNeighborBlockSampler.sample`. -/
theorem claim8_full_idempotent (g : Graph) (L : Nat) (seeds : List Nat)
    (sels1 sels2 : List Selector) (h1 : sels1.length = L) (h2 : sels2.length = L)
    (hf1 : ∀ sel ∈ sels1, IsFullSel sel) (hf2 : ∀ sel ∈ sels2, IsFullSel sel) :
    sampleChain g sels1 seeds = sampleChain g sels2 seeds ∧
    sampleChain g sels1 seeds = FullNeighborBlockSampler.sample ⟨g, L⟩ seeds := by
  have e1 : sampleChain g sels1 seeds
      = FullNeighborBlockSampler.sample ⟨g, L⟩ seeds := by
    rw [FullNeighborBlockSampler.sample, sampleChain, sampleChain,
      sampleChainAux_fullSels g sels1 seeds [] hf1, h1]
  have e2 : sampleChain g sels2 seeds
      = FullNeighborBlockSampler.sample ⟨g, L⟩ seeds := by
    rw [FullNeighborBlockSampler.sample, sampleChain, sampleChain,
      sampleChainAux_fullSels g sels2 seeds [] hf2, h2]
  exact ⟨e1.trans e2.symm, e1⟩

/-- Witness for C8 with two concrete full-selection runs. -/
theorem claim8_witness :
    sampleChain exampleGraph5 [fullSelector] [4, 6]
        = sampleChain exampleGraph5 [fullSelector] [4, 6] ∧
    sampleChain exampleGraph5 [fullSelector] [4, 6]
        = FullNeighborBlockSampler.sample ⟨exampleGraph5, 1⟩ [4, 6] :=
  claim8_full_idempotent exampleGraph5 1 [4, 6] [fullSelector] [fullSelector] rfl rfl
    (fun sel hs => by
      rw [List.mem_singleton] at hs
      subst hs
      exact fun v es => rfl)
    (fun sel hs => by
      rw [List.mem_singleton] at hs
      subst hs
      exact fun v es => rfl)

/-- C9: for a 1-layer model, layer-wise full-graph inference (sequential
batches of all node ids, a single-layer full-neighbor block per batch,
outputs concatenated in batch order) equals applying the layer transform
once over the whole graph's in-subgraph with no batching, for every
positive batch size. -/
theorem claim9_inference_consistency (g : Graph) (φ : ℚ → ℚ → ℚ) (feats : List ℚ)
    (bs : Nat) (hbs : 0 < bs) :
    inference_with_sagenet [φ] g feats bs = wholeGraphLayer φ g feats := by
  simp only [inference_with_sagenet, wholeGraphLayer, List.foldl_cons, List.foldl_nil,
    fullSample_one, List.getD_cons_zero]
  have hstep : ∀ batch ∈ chunksList (List.range g.numNodes) bs,
      SAGENet.propagate φ (buildBlock g fullSelector batch)
        ((buildBlock g fullSelector batch).src_global_ids.map (fun v => feats.getD v 0))
      = batch.map (fun v => φ (feats.getD v 0)
          (ratMean ((inEdges g v).map (fun e => feats.getD e.1 0)))) := by
    intro batch hbatch
    exact propagate_buildBlock_full g φ feats batch
      ((chunksList_sublist _ _ batch hbatch).nodup (List.nodup_range g.numNodes))
  rw [List.flatMap_congr hstep, ← List.map_flatMap, flatMap_self_eq_flatten,
    chunksList_flatten _ _ hbs,
    propagate_buildBlock_full g φ feats (List.range g.numNodes)
      (List.nodup_range g.numNodes)]

/-- Witness for C9: a concrete feature vector and batch size 3 on the
5-edge graph. -/
theorem claim9_witness :
    inference_with_sagenet [fun a b => a + 2 * b] exampleGraph5
        [1, 2, 3, 4, 5, 6, 7, 8] 3
      = wholeGraphLayer (fun a b => a + 2 * b) exampleGraph5
        [1, 2, 3, 4, 5, 6, 7, 8] :=
  claim9_inference_consistency exampleGraph5 (fun a b => a + 2 * b)
    [1, 2, 3, 4, 5, 6, 7, 8] 3 (by decide)

/-- C3: in a chain produced by `NeighborSampler` whose per-step selectors
implement fixed-fanout sampling matching the configured fanouts, the block
at chain position `i` (whose layer fanout is `num_fanouts[i]`) gives every
destination node an in-degree within the block of exactly
`min fanout (original in-degree)`, hence at most the fanout. -/
theorem claim3_fanout_degree (g : Graph) (nf : List Nat) (sels : List Selector)
    (hm : MatchesFanouts nf sels) (seeds : List Nat) (i : Nat) (b : Block)
    (hi : i < ((NeighborSampler.init g nf).sampleWith sels seeds).length)
    (hb : b = ((NeighborSampler.init g nf).sampleWith sels seeds).getD i emptyBlock)
    (j : Nat) (hj : j < b.dst_global_ids.length) :
    blockInDeg b j ≤ nf.getD i 0 ∧
    blockInDeg b j = min (nf.getD i 0) (inDegree g (b.dst_global_ids.getD j 0)) := by
  obtain ⟨hlen, hfan⟩ := hm
  have hchain : (NeighborSampler.init g nf).sampleWith sels seeds
      = ((buildSeqF g sels seeds).map Prod.fst).reverse := by
    rw [NeighborSampler.sampleWith, sampleChain, sampleChainAux_eq_buildSeqF]
    simp
    rfl
  have hLc : ((NeighborSampler.init g nf).sampleWith sels seeds).length
      = sels.length := by
    rw [NeighborSampler.sampleWith, sampleChain_length]
  have hiL : i < sels.length := by
    rw [← hLc]
    exact hi
  have hmaplen : ((buildSeqF g sels seeds).map Prod.fst).length = sels.length := by
    rw [List.length_map, buildSeqF_length]
  have htL : sels.length - 1 - i < sels.length := by omega
  have hbt : b = ((buildSeqF g sels seeds).map Prod.fst).getD
      (sels.length - 1 - i) emptyBlock := by
    rw [hb, hchain, getD_reverse _ _ i (by rw [hmaplen]; exact hiL), hmaplen]
  have htm : sels.length - 1 - i < ((buildSeqF g sels seeds).map Prod.fst).length := by
    rw [hmaplen]
    exact htL
  have hts2 : sels.length - 1 - i < (buildSeqF g sels seeds).length := by
    rw [buildSeqF_length]
    exact htL
  obtain ⟨fr2, hfr2⟩ := buildSeqF_getD g sels seeds (sels.length - 1 - i) htL
  have hbb : b = buildBlock g (sels.getD (sels.length - 1 - i) fullSelector) fr2 := by
    rw [hbt, List.getD_eq_getElem _ _ htm, List.getElem_map,
      ← List.getD_eq_getElem _ (emptyBlock, []) hts2, hfr2]
  have hrev : nf.reverse.getD (sels.length - 1 - i) 0 = nf.getD i 0 := by
    rw [getD_reverse nf 0 (sels.length - 1 - i) (by omega)]
    have hidx : nf.length - 1 - (sels.length - 1 - i) = i := by omega
    rw [hidx]
  have hsel : IsFanoutSel (nf.getD i 0)
      (sels.getD (sels.length - 1 - i) fullSelector) := by
    rw [← hrev]
    exact hfan (sels.length - 1 - i) htL
  rw [hbb] at hj ⊢
  have hdeg := buildBlock_fanout_deg g
    (sels.getD (sels.length - 1 - i) fullSelector) (nf.getD i 0) hsel fr2 j hj
  constructor
  · rw [hdeg]
    exact Nat.min_le_left _ _
  · exact hdeg

/-- Witness for C3: fanout 1 on the 5-edge graph, seeds [4,6]. -/
theorem claim3_witness :
    blockInDeg (((NeighborSampler.init exampleGraph5 [1]).sampleWith [takeSelector 1]
        [4, 6]).getD 0 emptyBlock) 0 ≤ ([1] : List Nat).getD 0 0 ∧
    blockInDeg (((NeighborSampler.init exampleGraph5 [1]).sampleWith [takeSelector 1]
        [4, 6]).getD 0 emptyBlock) 0
      = min (([1] : List Nat).getD 0 0)
          (inDegree exampleGraph5
            ((((NeighborSampler.init exampleGraph5 [1]).sampleWith [takeSelector 1]
                [4, 6]).getD 0 emptyBlock).dst_global_ids.getD 0 0)) :=
  claim3_fanout_degree exampleGraph5 [1] [takeSelector 1]
    ⟨rfl, fun t ht => by
      have h0 : t = 0 := by
        simpa using ht
      subst h0
      exact takeSelector_fanout 1⟩
    [4, 6] 0 _ (by decide) rfl 0 (by decide)
